import Mathlib

/-!
# acctestcheckdestroy

A shallow embedding of `passes/acctestcheckdestroy/acctestcheckdestroy.go`:
the analyzer that reports `resource.TestCase` composite literals which do not
set `CheckDestroy`.

Modelling conventions.

* `go/ast` nodes are the inductive `Node`.  The node kinds the analyzer
  inspects have their own constructors; every other kind is `Node.Other`,
  which keeps its children in `ast.Walk` order.
* Pointers that `go/ast` and `go/types` document as possibly nil are
  `Option`s: `CompositeLit.Type`, the result of `TypesInfo.TypeOf`, and
  `(*types.TypeName).Pkg()`.
* A Go run-time panic is the `Except.error` result, tagged by `Panic`.
* `pass.Reportf` is a sink: `run` returns the diagnostics handed to it, in
  order, together with the outcome of the call.
* Go strings are Lean strings; `strings.HasSuffix` follows the standard
  library body (length test, then comparison of the tail).
-/

namespace Acctestcheckdestroy

/-! ## go/ast -/

/-- An identifier, `ast.Ident`: `Pos()` is `NamePos`. -/
structure Ident where
  NamePos : Nat
  Name : String
deriving DecidableEq, Repr

/-- Syntax nodes, `ast.Node`. -/
inductive Node where
  | Ident (id : Ident)
  | BasicLit (ValuePos : Nat) (Value : String)
  | SelectorExpr (X : Node) (Sel : Ident)
  | KeyValueExpr (Key : Node) (Value : Node)
  | CompositeLit (Type_ : Option Node) (Lbrace : Nat) (Elts : List Node)
  | Other (pos : Nat) (children : List Node)

/-- The fields of an `ast.CompositeLit` node. -/
structure CompositeLit where
  Type_ : Option Node
  Lbrace : Nat
  Elts : List Node

/-- The node a composite literal is. -/
def CompositeLit.toNode (cl : CompositeLit) : Node :=
  .CompositeLit cl.Type_ cl.Lbrace cl.Elts

/-- The checked conversion `n.(*ast.CompositeLit)`. -/
def asCompositeLit : Node → Option CompositeLit
  | .CompositeLit t lb elts => some ⟨t, lb, elts⟩
  | _ => none

/-- Source position of a node, `Node.Pos()`. -/
def Node.Pos : Node → Nat
  | .Ident id => id.NamePos
  | .BasicLit p _ => p
  | .SelectorExpr X _ => X.Pos
  | .KeyValueExpr k _ => k.Pos
  | .CompositeLit (some t) _ _ => t.Pos
  | .CompositeLit none lb _ => lb
  | .Other p _ => p

/-- Opening position of a composite literal, `(*ast.CompositeLit).Pos()`. -/
def CompositeLit.Pos (cl : CompositeLit) : Nat :=
  cl.toNode.Pos

mutual
/-- Depth-first pre-order sequence of a node and its descendants, in the order
of `ast.Walk` (the order `inspector.Preorder` visits them). -/
def Node.walk : Node → List Node
  | .Ident id => [.Ident id]
  | .BasicLit p v => [.BasicLit p v]
  | .SelectorExpr X Sel => .SelectorExpr X Sel :: (X.walk ++ [.Ident Sel])
  | .KeyValueExpr k v => .KeyValueExpr k v :: (k.walk ++ v.walk)
  | .CompositeLit t lb elts => .CompositeLit t lb elts :: (walkOpt t ++ walkList elts)
  | .Other p cs => .Other p cs :: walkList cs
/-- Pre-order sequence of an optional child. -/
def walkOpt : Option Node → List Node
  | none => []
  | some n => n.walk
/-- Pre-order sequence of a list of siblings. -/
def walkList : List Node → List Node
  | [] => []
  | n :: ns => n.walk ++ walkList ns
end

/-! ## go/types -/

/-- A package, `types.Package`. -/
structure Package where
  Path : String
deriving DecidableEq, Repr

/-- A type object, `types.TypeName`: `Pkg()` is nil for objects of the
universe scope. -/
structure TypeName where
  Name : String
  Pkg : Option Package
deriving DecidableEq, Repr

/-- A type, `types.Type`: either `*types.Named` with its object, or any other
kind of type. -/
inductive GoType where
  | Named (Obj : TypeName)
  | Other (kind : Nat)
deriving DecidableEq, Repr

/-! ## go/analysis -/

/-- The run-time panics the analyzer can raise. -/
inductive Panic where
  /-- Method call through a nil `*types.Package` (line 90). -/
  | nilPackage
  /-- Failed assertion `v.Key.(*ast.Ident)` (line 41). -/
  | keyNotIdent
  /-- Failed assertion `testCase.Type.(*ast.SelectorExpr)` (line 49). -/
  | typeNotSelectorExpr
  /-- Failed assertion `n.(*ast.CompositeLit)` (line 65). -/
  | nodeNotCompositeLit
deriving DecidableEq, Repr

/-- A reported finding, `analysis.Diagnostic`. -/
structure Diagnostic where
  Pos : Nat
  Message : String
deriving DecidableEq, Repr

/-- What the analyzer reads from `analysis.Pass`: the files the inspector
was built from and `pass.TypesInfo.TypeOf`. -/
structure Pass where
  Files : List Node
  TypeOf : Node → Option GoType

/-- Go's `strings.HasSuffix`:
`len(s) >= len(suffix) && s[len(s)-len(suffix):] == suffix`. -/
def HasSuffix (s suffix : String) : Bool :=
  decide (s.length ≥ suffix.length) &&
    (s.data.drop (s.length - suffix.length) == suffix.data)

/-- The path suffix that identifies the declaring package. -/
def resourcePath : String := "github.com/hashicorp/terraform/helper/resource"

/-! ## The analyzer -/

/-- Source function `IsResourceTestCase` (lines 77-96). -/
def IsResourceTestCase (pass : Pass) (cl : CompositeLit) : Except Panic Bool :=
  match cl.Type_ with
  | some (.SelectorExpr X Sel) =>
    match pass.TypeOf (.SelectorExpr X Sel) with
    | some (.Named Obj) =>
      if Obj.Name ≠ "TestCase" then .ok false
      else
        match Obj.Pkg with
        | none => .error .nilPackage
        | some pkg =>
          if !HasSuffix pkg.Path "github.com/hashicorp/terraform/helper/resource" then .ok false
          else .ok true
    | _ => .ok false
  | _ => .ok false

/-- The node filter `[]ast.Node{(*ast.CompositeLit)(nil)}`. -/
def nodeFilter : Node → Bool
  | .CompositeLit _ _ _ => true
  | _ => false

/-- The traversal `inspector.Preorder(types, f)`: calls `f` on every node of the
files whose kind passes the filter, in pre-order; `f` updates the state it
closes over and may panic. -/
def Preorder {σ : Type} (files : List Node) (types : Node → Bool)
    (f : Node → σ → Except Panic σ) (init : σ) : Except Panic σ :=
  ((walkList files).filter types).foldlM (fun s n => f n s) init

/-- The callback of `ResourceTestCases` (lines 64-72), acting on `result`. -/
def collect (pass : Pass) (n : Node) (result : List CompositeLit) :
    Except Panic (List CompositeLit) :=
  match asCompositeLit n with
  | none => .error .nodeNotCompositeLit
  | some x =>
    match IsResourceTestCase pass x with
    | .error p => .error p
    | .ok false => .ok result
    | .ok true => .ok (result ++ [x])

/-- Source function `ResourceTestCases` (lines 57-75). -/
def ResourceTestCases (pass : Pass) : Except Panic (List CompositeLit) :=
  Preorder pass.Files nodeFilter (collect pass) []

/-- The inner loop of `run` (lines 36-46) over the remaining entries, threading
`found`.  The `break` of line 43 leaves the `switch` only, so the loop goes on
to the next entry. -/
def scanElts : List Node → Bool → Except Panic Bool
  | [], found => .ok found
  | .KeyValueExpr (.Ident id) _ :: rest, found =>
    if id.Name = "CheckDestroy" then scanElts rest true else scanElts rest found
  | .KeyValueExpr _ _ :: _, _ => .error .keyNotIdent
  | _ :: rest, found => scanElts rest found

/-- One iteration of the outer loop of `run` (lines 34-50): the diagnostics it
reports and whether it completes. -/
def checkTestCase (testCase : CompositeLit) : List Diagnostic × Except Panic Unit :=
  match scanElts testCase.Elts false with
  | .error p => ([], .error p)
  | .ok true => ([], .ok ())
  | .ok false =>
    match testCase.Type_ with
    | some (.SelectorExpr _ Sel) => ([⟨Sel.NamePos, "missing CheckDestroy"⟩], .ok ())
    | _ => ([], .error .typeNotSelectorExpr)

/-- The outer loop of `run` (lines 33-51) over the remaining test cases. -/
def runLoop : List CompositeLit → List Diagnostic × Except Panic Unit
  | [] => ([], .ok ())
  | testCase :: rest =>
    match checkTestCase testCase with
    | (ds, .error p) => (ds, .error p)
    | (ds, .ok ()) => (ds ++ (runLoop rest).1, (runLoop rest).2)

/-- Source function `run` (lines 31-54). -/
def run (pass : Pass) : List Diagnostic × Except Panic Unit :=
  match ResourceTestCases pass with
  | .error p => ([], .error p)
  | .ok testCases => runLoop testCases

/-! ## Predicates used in the statements -/

/-- The entry is a key/value pair whose key is the identifier `CheckDestroy`. -/
def isCheckDestroyEntry : Node → Bool
  | .KeyValueExpr (.Ident id) _ => id.Name == "CheckDestroy"
  | _ => false

/-- Some entry of the list is a key/value pair keyed by the identifier
`CheckDestroy`. -/
def hasCheckDestroyEntry (elts : List Node) : Bool :=
  elts.any isCheckDestroyEntry

/-- The entry is not a key/value pair whose key is something other than an
identifier. -/
def identKeyed : Node → Bool
  | .KeyValueExpr (.Ident _) _ => true
  | .KeyValueExpr _ _ => false
  | _ => true

/-- The entry is a bare (positional) value. -/
def isPositional : Node → Bool
  | .KeyValueExpr _ _ => false
  | _ => true

/-- The entry is a key/value pair keyed by an identifier other than
`CheckDestroy`. -/
def isOtherField : Node → Bool
  | .KeyValueExpr (.Ident id) _ => id.Name != "CheckDestroy"
  | _ => false

/-- The composite literals of a node sequence, in order. -/
def compositeLits (ns : List Node) : List CompositeLit :=
  ns.filterMap asCompositeLit

/-- The matcher returns true on the literal. -/
def accepts (pass : Pass) (cl : CompositeLit) : Bool :=
  match IsResourceTestCase pass cl with
  | .ok true => true
  | _ => false

/-- The matcher returns a verdict on the literal. -/
def decides (pass : Pass) (cl : CompositeLit) : Bool :=
  match IsResourceTestCase pass cl with
  | .ok _ => true
  | .error _ => false

/-- The diagnostic `run` reports for a test case whose type is a selector. -/
def missingCheckDestroy (testCase : CompositeLit) : Diagnostic :=
  match testCase.Type_ with
  | some (.SelectorExpr _ Sel) => ⟨Sel.NamePos, "missing CheckDestroy"⟩
  | _ => ⟨testCase.Lbrace, "missing CheckDestroy"⟩

/-- The field scan of the test case meets no key that is not an identifier. -/
def scannable (testCase : CompositeLit) : Bool :=
  testCase.Elts.all identKeyed

/-- The test case has no entry keyed by the identifier `CheckDestroy`. -/
def lacksCheckDestroy (testCase : CompositeLit) : Bool :=
  !hasCheckDestroyEntry testCase.Elts

/-! ## Sample inputs -/

/-- The type expression `resource.TestCase`, qualifier at 10, name at 19. -/
def resourceTestCase : Node :=
  .SelectorExpr (.Ident ⟨10, "resource"⟩) ⟨19, "TestCase"⟩

/-- The named type `TestCase` declared in the package of the given path. -/
def testCaseIn (path : String) : GoType :=
  .Named ⟨"TestCase", some ⟨path⟩⟩

/-- A resolver that gives every expression the same type. -/
def constInfo (t : Option GoType) : Node → Option GoType :=
  fun _ => t

/-- The literal `resource.TestCase{}`. -/
def emptyLit : CompositeLit :=
  ⟨some resourceTestCase, 27, []⟩

/-- The literal `resource.TestCase{"k": v}`, whose key is a string literal. -/
def literalKeyLit : CompositeLit :=
  ⟨some resourceTestCase, 27, [.KeyValueExpr (.BasicLit 28 "\"k\"") (.Ident ⟨33, "v"⟩)]⟩

/-- A resolver built from an import table: the selector `q.T` whose qualifier
`q` names an imported package has the named type `T` of that package; nothing
else is resolved. -/
def importInfo (imports : List (String × String)) : Node → Option GoType
  | .SelectorExpr (.Ident q) Sel =>
    match imports.lookup q.Name with
    | some path => some (.Named ⟨Sel.Name, some ⟨path⟩⟩)
    | none => none
  | _ => none

/-- The import table of the sample units. -/
def sampleImports : List (String × String) :=
  [("resource", "github.com/hashicorp/terraform/helper/resource"),
   ("other", "example.com/other")]

/-- The literal `resource.TestCase{Steps: s}` opening at 100. -/
def firstCase : CompositeLit :=
  ⟨some (.SelectorExpr (.Ident ⟨100, "resource"⟩) ⟨109, "TestCase"⟩), 117,
    [.KeyValueExpr (.Ident ⟨118, "Steps"⟩) (.Ident ⟨125, "s"⟩)]⟩

/-- The literal `resource.TestCase{CheckDestroy: f, Steps: s}` opening at 200. -/
def secondCase : CompositeLit :=
  ⟨some (.SelectorExpr (.Ident ⟨200, "resource"⟩) ⟨209, "TestCase"⟩), 217,
    [.KeyValueExpr (.Ident ⟨218, "CheckDestroy"⟩) (.Ident ⟨232, "f"⟩),
     .KeyValueExpr (.Ident ⟨235, "Steps"⟩) (.Ident ⟨242, "s"⟩)]⟩

/-- The literal `other.TestCase{Steps: s}` opening at 300. -/
def otherCase : CompositeLit :=
  ⟨some (.SelectorExpr (.Ident ⟨300, "other"⟩) ⟨306, "TestCase"⟩), 314,
    [.KeyValueExpr (.Ident ⟨315, "Steps"⟩) (.Ident ⟨322, "s"⟩)]⟩

/-- The literal `resource.OtherType{CheckDestroy: f}` opening at 400. -/
def otherTypeCase : CompositeLit :=
  ⟨some (.SelectorExpr (.Ident ⟨400, "resource"⟩) ⟨409, "OtherType"⟩), 418,
    [.KeyValueExpr (.Ident ⟨419, "CheckDestroy"⟩) (.Ident ⟨433, "f"⟩)]⟩

/-- A unit whose file holds the given literals, in order. -/
def unitOf (lits : List CompositeLit) : Pass :=
  ⟨[.Other 1 (lits.map CompositeLit.toNode)], importInfo sampleImports⟩

/-- A named type `TestCase` whose object has no package. -/
def packagelessTestCase : GoType :=
  .Named ⟨"TestCase", none⟩

/-- The key of a key/value entry; none for a positional entry. -/
def entryKey : Node → Option Node
  | .KeyValueExpr k _ => some k
  | _ => none

/-- The literal `resource.TestCase{CheckDestroy: f, "k": v}`. -/
def keyAfterCheckDestroyLit : CompositeLit :=
  ⟨some resourceTestCase, 27,
    [.KeyValueExpr (.Ident ⟨28, "CheckDestroy"⟩) (.Ident ⟨42, "f"⟩),
     .KeyValueExpr (.BasicLit 45 "\"k\"") (.Ident ⟨50, "v"⟩)]⟩

/-- The literal `alias.TC{}`. -/
def aliasLit : CompositeLit :=
  ⟨some (.SelectorExpr (.Ident ⟨10, "alias"⟩) ⟨16, "TC"⟩), 18, []⟩

/-- The literal `resource.TestCase{CheckDestroy: f}` opening at 500. -/
def innerWith : CompositeLit :=
  ⟨some (.SelectorExpr (.Ident ⟨500, "resource"⟩) ⟨509, "TestCase"⟩), 517,
    [.KeyValueExpr (.Ident ⟨518, "CheckDestroy"⟩) (.Ident ⟨532, "f"⟩)]⟩

/-- The literal `resource.TestCase{}` opening at 600. -/
def innerWithout : CompositeLit :=
  ⟨some (.SelectorExpr (.Ident ⟨600, "resource"⟩) ⟨609, "TestCase"⟩), 617, []⟩

/-- The literal `resource.TestCase{Nested: resource.TestCase{CheckDestroy: f}}`
opening at 100. -/
def outerWithout : CompositeLit :=
  ⟨some (.SelectorExpr (.Ident ⟨100, "resource"⟩) ⟨109, "TestCase"⟩), 117,
    [.KeyValueExpr (.Ident ⟨118, "Nested"⟩) innerWith.toNode]⟩

/-- The literal `resource.TestCase{CheckDestroy: f, Nested: resource.TestCase{}}`
opening at 200. -/
def outerWith : CompositeLit :=
  ⟨some (.SelectorExpr (.Ident ⟨200, "resource"⟩) ⟨209, "TestCase"⟩), 217,
    [.KeyValueExpr (.Ident ⟨218, "CheckDestroy"⟩) (.Ident ⟨232, "f"⟩),
     .KeyValueExpr (.Ident ⟨235, "Nested"⟩) innerWithout.toNode]⟩

/-- The literal `TestCase{}`, its type a bare identifier. -/
def bareLit : CompositeLit :=
  ⟨some (.Ident ⟨10, "TestCase"⟩), 18, []⟩

/-- The literal `{}`, its type elided inside an enclosing literal. -/
def elidedLit : CompositeLit :=
  ⟨none, 30, []⟩

/-- A unit holding `TestCase{}` and, inside another node, `{}`, in which the
resolver gives every expression the type `TestCase` of the target package. -/
def unqualifiedUnit : Pass :=
  ⟨[.Other 1 [bareLit.toNode, .Other 2 [elidedLit.toNode]]],
    constInfo (some (testCaseIn "github.com/hashicorp/terraform/helper/resource"))⟩

/-- The named types of the universe scope of `go/types`, the only type objects
whose `Pkg()` is nil. -/
def universeTypeNames : List String :=
  ["error", "comparable"]

/-- The named type `error` of the universe scope. -/
def errorType : GoType :=
  .Named ⟨"error", none⟩

/-- The literal `resource.TestCase{"k": v}` opening at 300. -/
def literalKeyCase : CompositeLit :=
  ⟨some (.SelectorExpr (.Ident ⟨300, "resource"⟩) ⟨309, "TestCase"⟩), 317,
    [.KeyValueExpr (.BasicLit 318 "\"k\"") (.Ident ⟨323, "v"⟩)]⟩

/-- A unit with three literals of the target type, in source order:
`resource.TestCase{Steps: s}`, `resource.TestCase{"k": v}` and
`resource.TestCase{}`. -/
def literalKeyUnit : Pass :=
  unitOf [firstCase, literalKeyCase, innerWithout]

/-- The literal `resource.TestCase{}` opening at 723. -/
def nestedInner : CompositeLit :=
  ⟨some (.SelectorExpr (.Ident ⟨723, "resource"⟩) ⟨732, "TestCase"⟩), 740, []⟩

/-- The literal `resource.TestCase{"k": resource.TestCase{}}` opening at 700. -/
def literalKeyOuter : CompositeLit :=
  ⟨some (.SelectorExpr (.Ident ⟨700, "resource"⟩) ⟨709, "TestCase"⟩), 717,
    [.KeyValueExpr (.BasicLit 718 "\"k\"") nestedInner.toNode]⟩

end Acctestcheckdestroy

namespace Acctestcheckdestroy

/-! ## strings.HasSuffix -/

theorem HasSuffix_iff (s t : String) :
    HasSuffix s t = true ↔ ∃ pre : String, s = pre ++ t := by
  unfold HasSuffix
  simp only [Bool.and_eq_true, decide_eq_true_eq, beq_iff_eq, String.length]
  constructor
  · rintro ⟨_, hd⟩
    refine ⟨⟨s.data.take (s.data.length - t.data.length)⟩, ?_⟩
    apply String.ext
    have h1 := List.take_append_drop (s.data.length - t.data.length) s.data
    rw [hd] at h1
    rw [String.data_append]
    exact h1.symm
  · rintro ⟨pre, rfl⟩
    simp [String.data_append]

theorem HasSuffix_append (pre t : String) : HasSuffix (pre ++ t) t = true :=
  (HasSuffix_iff _ _).2 ⟨pre, rfl⟩

/-! ## IsResourceTestCase -/

theorem IsResourceTestCase_of_not_selector (pass : Pass) (cl : CompositeLit)
    (h : ∀ X Sel, cl.Type_ ≠ some (.SelectorExpr X Sel)) :
    IsResourceTestCase pass cl = .ok false := by
  unfold IsResourceTestCase
  split
  · next X Sel heq => exact absurd heq (h X Sel)
  · rfl

theorem IsResourceTestCase_selector (pass : Pass) (cl : CompositeLit) (X : Node) (Sel : Ident)
    (h : cl.Type_ = some (.SelectorExpr X Sel)) :
    IsResourceTestCase pass cl =
      match pass.TypeOf (.SelectorExpr X Sel) with
      | some (.Named Obj) =>
        if Obj.Name ≠ "TestCase" then .ok false
        else
          match Obj.Pkg with
          | none => .error .nilPackage
          | some pkg => if !HasSuffix pkg.Path resourcePath then .ok false else .ok true
      | _ => .ok false := by
  unfold IsResourceTestCase
  rw [h]
  rfl

theorem selector_or_not (o : Option Node) :
    (∃ X Sel, o = some (.SelectorExpr X Sel)) ∨ (∀ X Sel, o ≠ some (.SelectorExpr X Sel)) := by
  rcases o with _ | n
  · right; intro X Sel h; cases h
  · cases n
    case SelectorExpr X Sel => exact Or.inl ⟨X, Sel, rfl⟩
    all_goals right; intro X Sel h; cases h

theorem IsResourceTestCase_true_iff (pass : Pass) (cl : CompositeLit) :
    IsResourceTestCase pass cl = .ok true ↔
      ∃ X Sel Obj pkg, cl.Type_ = some (.SelectorExpr X Sel) ∧
        pass.TypeOf (.SelectorExpr X Sel) = some (.Named Obj) ∧
        Obj.Name = "TestCase" ∧ Obj.Pkg = some pkg ∧
        ∃ pre : String, pkg.Path = pre ++ resourcePath := by
  constructor
  · intro h
    rcases selector_or_not cl.Type_ with ⟨X, Sel, hT⟩ | hT
    · rw [IsResourceTestCase_selector pass cl X Sel hT] at h
      rcases hty : pass.TypeOf (.SelectorExpr X Sel) with _ | ty
      · rw [hty] at h; cases h
      · rw [hty] at h
        cases ty with
        | Other k => cases h
        | Named Obj =>
          simp only at h
          by_cases hn : Obj.Name = "TestCase"
          · rw [if_neg (not_not.mpr hn)] at h
            rcases hp : Obj.Pkg with _ | pkg
            · rw [hp] at h; cases h
            · rw [hp] at h
              simp only at h
              by_cases hs : HasSuffix pkg.Path resourcePath = true
              · exact ⟨X, Sel, Obj, pkg, hT, hty, hn, hp, (HasSuffix_iff _ _).1 hs⟩
              · simp [hs] at h
          · rw [if_pos hn] at h; cases h
    · rw [IsResourceTestCase_of_not_selector pass cl hT] at h; cases h
  · rintro ⟨X, Sel, Obj, pkg, hT, hty, hn, hp, hs⟩
    rw [IsResourceTestCase_selector pass cl X Sel hT, hty]
    simp only
    rw [if_neg (not_not.mpr hn), hp]
    simp only
    rw [(HasSuffix_iff _ _).2 hs]
    rfl

/-- C1: `IsResourceTestCase` returns true exactly when the literal's type is a
selector expression, the resolver gives that expression a named type, the type's
name is `TestCase`, and the path of its package ends with
`github.com/hashicorp/terraform/helper/resource`; it returns false when the type
is absent, when it is any node other than a selector (a bare identifier
included), when the selector is unresolved or resolves to a type that is not
named, when the name differs, and when the package path lacks the suffix. -/
theorem IsResourceTestCase_spec (pass : Pass) (cl : CompositeLit) :
    (IsResourceTestCase pass cl = .ok true ↔
      ∃ X Sel Obj pkg, cl.Type_ = some (.SelectorExpr X Sel) ∧
        pass.TypeOf (.SelectorExpr X Sel) = some (.Named Obj) ∧
        Obj.Name = "TestCase" ∧ Obj.Pkg = some pkg ∧
        ∃ pre : String, pkg.Path = pre ++ resourcePath) ∧
    (cl.Type_ = none → IsResourceTestCase pass cl = .ok false) ∧
    ((∀ X Sel, cl.Type_ ≠ some (.SelectorExpr X Sel)) →
      IsResourceTestCase pass cl = .ok false) ∧
    (∀ X Sel, cl.Type_ = some (.SelectorExpr X Sel) →
      (pass.TypeOf (.SelectorExpr X Sel) = none →
        IsResourceTestCase pass cl = .ok false) ∧
      (∀ k, pass.TypeOf (.SelectorExpr X Sel) = some (.Other k) →
        IsResourceTestCase pass cl = .ok false) ∧
      (∀ Obj, pass.TypeOf (.SelectorExpr X Sel) = some (.Named Obj) →
        Obj.Name ≠ "TestCase" → IsResourceTestCase pass cl = .ok false) ∧
      (∀ Obj pkg, pass.TypeOf (.SelectorExpr X Sel) = some (.Named Obj) →
        Obj.Pkg = some pkg → (¬ ∃ pre : String, pkg.Path = pre ++ resourcePath) →
        IsResourceTestCase pass cl = .ok false)) := by
  refine ⟨IsResourceTestCase_true_iff pass cl, ?_, IsResourceTestCase_of_not_selector pass cl, ?_⟩
  · intro h
    apply IsResourceTestCase_of_not_selector
    intro X Sel h2
    rw [h] at h2
    cases h2
  · intro X Sel hT
    rw [IsResourceTestCase_selector pass cl X Sel hT]
    refine ⟨?_, ?_, ?_, ?_⟩
    · intro h; rw [h]
    · intro k h; rw [h]
    · intro Obj h hn; rw [h]; simp only; rw [if_pos hn]
    · intro Obj pkg h hp hs
      rw [h]
      simp only
      by_cases hn : Obj.Name = "TestCase"
      · rw [if_neg (not_not.mpr hn), hp]
        simp only
        have hs2 : HasSuffix pkg.Path resourcePath = false := by
          rw [← Bool.not_eq_true]
          exact fun h3 => hs ((HasSuffix_iff _ _).1 h3)
        rw [hs2]
        rfl
      · rw [if_pos hn]

/-- Instance of C1: `resource.TestCase{}` resolved to `TestCase` of the package
`github.com/hashicorp/terraform/helper/resource` is accepted. -/
theorem IsResourceTestCase_spec_witness :
    IsResourceTestCase ⟨[], constInfo (some (testCaseIn resourcePath))⟩ emptyLit = .ok true :=
  (IsResourceTestCase_spec ⟨[], constInfo (some (testCaseIn resourcePath))⟩ emptyLit).1.2
    ⟨.Ident ⟨10, "resource"⟩, ⟨19, "TestCase"⟩, ⟨"TestCase", some ⟨resourcePath⟩⟩, ⟨resourcePath⟩,
      rfl, rfl, rfl, rfl, "", by decide⟩

/-- The partial resolver states on which `IsResourceTestCase` does return
false: no type, a type that is not named, and a named type without a package
whose name is not `TestCase`. -/
theorem IsResourceTestCase_partial_info (pass : Pass) (cl : CompositeLit) (X : Node) (Sel : Ident)
    (hT : cl.Type_ = some (.SelectorExpr X Sel)) :
    (pass.TypeOf (.SelectorExpr X Sel) = none → IsResourceTestCase pass cl = .ok false) ∧
    (∀ k, pass.TypeOf (.SelectorExpr X Sel) = some (.Other k) →
      IsResourceTestCase pass cl = .ok false) ∧
    (∀ name, name ≠ "TestCase" →
      pass.TypeOf (.SelectorExpr X Sel) = some (.Named ⟨name, none⟩) →
      IsResourceTestCase pass cl = .ok false) := by
  rw [IsResourceTestCase_selector pass cl X Sel hT]
  refine ⟨fun h => by rw [h], fun k h => by rw [h], fun name hn h => ?_⟩
  rw [h]
  simp only
  rw [if_pos hn]

/-- Outside the universe-scope invariant of `go/types`: were a selector mapped
to a named type called `TestCase` whose object has no package, the call would
stop at the nil package, and `run` with it. -/
theorem IsResourceTestCase_packageless_panics :
    IsResourceTestCase ⟨[], constInfo (some packagelessTestCase)⟩ emptyLit =
      .error .nilPackage ∧
    run ⟨[emptyLit.toNode], constInfo (some packagelessTestCase)⟩ =
      ([], .error .nilPackage) :=
  ⟨rfl, rfl⟩

/-! ## The field scan -/

theorem scanElts_eq : ∀ (elts : List Node) (found : Bool),
    scanElts elts found =
      if elts.all identKeyed = true then .ok (found || hasCheckDestroyEntry elts)
      else .error .keyNotIdent
  | [], found => by simp [scanElts, hasCheckDestroyEntry]
  | e :: rest, found => by
    have ih := scanElts_eq rest
    have hany : hasCheckDestroyEntry (e :: rest) =
        (isCheckDestroyEntry e || hasCheckDestroyEntry rest) := rfl
    rw [hany, List.all_cons]
    cases e with
    | KeyValueExpr k v =>
      cases k with
      | Ident id =>
        have h1 : identKeyed (.KeyValueExpr (.Ident id) v) = true := rfl
        have h2 : isCheckDestroyEntry (.KeyValueExpr (.Ident id) v) =
            (id.Name == "CheckDestroy") := rfl
        rw [h1, h2, Bool.true_and]
        by_cases hn : id.Name = "CheckDestroy"
        · have hb : (id.Name == "CheckDestroy") = true := by simpa using hn
          rw [hb]
          simp only [scanElts]
          rw [if_pos hn, ih]
          simp
        · have hb : (id.Name == "CheckDestroy") = false := by simpa using hn
          rw [hb]
          simp only [scanElts]
          rw [if_neg hn, ih]
          simp
      | _ => simp [scanElts, identKeyed]
    | _ =>
      simp only [scanElts]
      rw [ih]
      simp [identKeyed, isCheckDestroyEntry]

theorem identKeyed_of_field (e : Node)
    (h : isPositional e = true ∨ isOtherField e = true) :
    identKeyed e = true ∧ isCheckDestroyEntry e = false := by
  cases e with
  | KeyValueExpr k v =>
    cases k <;> simp_all [isPositional, isOtherField, identKeyed, isCheckDestroyEntry]
  | _ => simp [identKeyed, isCheckDestroyEntry]

theorem checkTestCase_selector (testCase : CompositeLit) (X : Node) (Sel : Ident)
    (hT : testCase.Type_ = some (.SelectorExpr X Sel)) :
    checkTestCase testCase =
      if testCase.Elts.all identKeyed = true then
        if hasCheckDestroyEntry testCase.Elts = true then ([], .ok ())
        else ([missingCheckDestroy testCase], .ok ())
      else ([], .error .keyNotIdent) := by
  unfold checkTestCase missingCheckDestroy
  rw [scanElts_eq, hT]
  by_cases hk : testCase.Elts.all identKeyed = true
  · by_cases hc : hasCheckDestroyEntry testCase.Elts = true
    · simp [hk, hc]
    · simp [hk, hc]
  · simp [hk]

theorem checkTestCase_found (testCase : CompositeLit)
    (h : hasCheckDestroyEntry testCase.Elts = true) : (checkTestCase testCase).1 = [] := by
  unfold checkTestCase
  rw [scanElts_eq]
  by_cases hk : testCase.Elts.all identKeyed = true
  · simp [hk, h]
  · simp [hk]

/-! ## ResourceTestCases -/

theorem IsResourceTestCase_error (pass : Pass) (cl : CompositeLit) (p : Panic)
    (h : IsResourceTestCase pass cl = .error p) : p = .nilPackage := by
  unfold IsResourceTestCase at h
  split at h
  · split at h
    · split at h
      · cases h
      · split at h
        · cases h; rfl
        · split at h <;> cases h
    · cases h
  · cases h

theorem collect_foldlM (pass : Pass) : ∀ (l : List Node) (acc : List CompositeLit),
    (l.filter nodeFilter).foldlM (fun s n => collect pass n s) acc =
      if (compositeLits l).all (decides pass) = true then
        .ok (acc ++ (compositeLits l).filter (accepts pass))
      else .error .nilPackage
  | [], acc => by simp [compositeLits]; rfl
  | n :: l, acc => by
    have ih := collect_foldlM pass l
    cases n with
    | CompositeLit t lb elts =>
      have hf : (Node.CompositeLit t lb elts :: l).filter nodeFilter =
          Node.CompositeLit t lb elts :: l.filter nodeFilter := by
        simp [nodeFilter]
      have hc : compositeLits (Node.CompositeLit t lb elts :: l) =
          ⟨t, lb, elts⟩ :: compositeLits l := by
        simp [compositeLits, asCompositeLit]
      rw [hf, hc, List.foldlM_cons, List.all_cons]
      unfold collect
      simp only [asCompositeLit]
      rcases hm : IsResourceTestCase pass ⟨t, lb, elts⟩ with p | b
      · have hp := IsResourceTestCase_error pass _ p hm
        have hd : decides pass ⟨t, lb, elts⟩ = false := by unfold decides; rw [hm]
        subst hp
        rw [hd]
        rfl
      · have hd : decides pass ⟨t, lb, elts⟩ = true := by unfold decides; rw [hm]
        rw [hd]
        cases b
        · have ha : accepts pass ⟨t, lb, elts⟩ = false := by unfold accepts; rw [hm]
          simp only [Bool.true_and]
          rw [List.filter_cons, ha]
          exact ih acc
        · have ha : accepts pass ⟨t, lb, elts⟩ = true := by unfold accepts; rw [hm]
          simp only [Bool.true_and]
          rw [List.filter_cons, ha]
          refine (ih (acc ++ [⟨t, lb, elts⟩])).trans ?_
          simp
    | _ =>
      simp only [List.filter_cons, nodeFilter, compositeLits, List.filterMap_cons, asCompositeLit]
      exact ih acc

theorem ResourceTestCases_eq (pass : Pass) :
    ResourceTestCases pass =
      if (compositeLits (walkList pass.Files)).all (decides pass) = true then
        .ok ((compositeLits (walkList pass.Files)).filter (accepts pass))
      else .error .nilPackage := by
  unfold ResourceTestCases Preorder
  rw [collect_foldlM]
  simp

theorem ResourceTestCases_ok_iff (pass : Pass) (testCases : List CompositeLit) :
    ResourceTestCases pass = .ok testCases ↔
      (∀ cl ∈ compositeLits (walkList pass.Files), decides pass cl = true) ∧
      testCases = (compositeLits (walkList pass.Files)).filter (accepts pass) := by
  rw [ResourceTestCases_eq]
  by_cases h : (compositeLits (walkList pass.Files)).all (decides pass) = true
  · rw [if_pos h]
    constructor
    · intro h2
      injection h2 with h2
      exact ⟨by simpa using h, h2.symm⟩
    · rintro ⟨_, rfl⟩; rfl
  · rw [if_neg h]
    constructor
    · intro h2; cases h2
    · rintro ⟨h2, _⟩
      exact absurd (by simpa using h2) h

theorem accepts_iff (pass : Pass) (cl : CompositeLit) :
    accepts pass cl = true ↔ IsResourceTestCase pass cl = .ok true := by
  unfold accepts
  rcases IsResourceTestCase pass cl with p | b
  · simp
  · cases b <;> simp

theorem selector_of_accepts (pass : Pass) (cl : CompositeLit) (h : accepts pass cl = true) :
    ∃ X Sel, cl.Type_ = some (.SelectorExpr X Sel) := by
  obtain ⟨X, Sel, _, _, hT, _⟩ := (IsResourceTestCase_true_iff pass cl).1 ((accepts_iff pass cl).1 h)
  exact ⟨X, Sel, hT⟩

theorem map_toNode_compositeLits : ∀ l : List Node,
    (compositeLits l).map CompositeLit.toNode = l.filter nodeFilter
  | [] => rfl
  | n :: l => by
    have ih := map_toNode_compositeLits l
    cases n <;>
      simp [compositeLits, asCompositeLit, nodeFilter, CompositeLit.toNode] <;>
      simpa [compositeLits] using ih

/-- C5: `ResourceTestCases` returns the composite literals of the pre-order
node sequence that `IsResourceTestCase` accepts, each occurrence once and in
that order: the result is the pre-order sequence restricted to composite
literals and filtered by the matcher, it is a subsequence of the traversal,
and its length is the number of accepted literals.  It returns whenever the
matcher returns on every composite literal of the files. -/
theorem ResourceTestCases_preorder (pass : Pass) :
    (∀ testCases, ResourceTestCases pass = .ok testCases →
      testCases = (compositeLits (walkList pass.Files)).filter (accepts pass) ∧
      (testCases.map CompositeLit.toNode).Sublist (walkList pass.Files) ∧
      testCases.length = (compositeLits (walkList pass.Files)).countP (accepts pass)) ∧
    ((∃ testCases, ResourceTestCases pass = .ok testCases) ↔
      ∀ cl ∈ compositeLits (walkList pass.Files), ∃ b, IsResourceTestCase pass cl = .ok b) := by
  constructor
  · intro testCases h
    obtain ⟨_, rfl⟩ := (ResourceTestCases_ok_iff pass testCases).1 h
    refine ⟨rfl, ?_, ?_⟩
    · refine (List.Sublist.map _ (List.filter_sublist _)).trans ?_
      rw [map_toNode_compositeLits]
      exact List.filter_sublist _
    · rw [List.countP_eq_length_filter]
  · have hd : ∀ cl, decides pass cl = true ↔ ∃ b, IsResourceTestCase pass cl = .ok b := by
      intro cl
      unfold decides
      rcases IsResourceTestCase pass cl with p | b <;> simp
    constructor
    · rintro ⟨testCases, h⟩ cl hcl
      exact (hd cl).1 (((ResourceTestCases_ok_iff pass testCases).1 h).1 cl hcl)
    · intro h
      exact ⟨_, (ResourceTestCases_ok_iff pass _).2 ⟨fun cl hcl => (hd cl).2 (h cl hcl), rfl⟩⟩

/-- Instance of C5: in the unit `resource.TestCase{Steps: s}`,
`other.TestCase{Steps: s}`, `resource.TestCase{CheckDestroy: f, Steps: s}` the
two `resource.TestCase` literals are collected, in source order. -/
theorem ResourceTestCases_preorder_witness :
    ResourceTestCases (unitOf [firstCase, otherCase, secondCase]) = .ok [firstCase, secondCase] ∧
    [firstCase, secondCase] =
      (compositeLits (walkList (unitOf [firstCase, otherCase, secondCase]).Files)).filter
        (accepts (unitOf [firstCase, otherCase, secondCase])) :=
  ⟨rfl, ((ResourceTestCases_preorder (unitOf [firstCase, otherCase, secondCase])).1
    [firstCase, secondCase] rfl).1⟩

/-! ## run -/

theorem runLoop_eq : ∀ (testCases : List CompositeLit),
    (∀ tc ∈ testCases, ∃ X Sel, tc.Type_ = some (.SelectorExpr X Sel)) →
    runLoop testCases =
      (((testCases.takeWhile scannable).filter lacksCheckDestroy).map missingCheckDestroy,
        if testCases.all scannable = true then .ok () else .error .keyNotIdent)
  | [], _ => by simp [runLoop]
  | tc :: rest, h => by
    obtain ⟨X, Sel, hT⟩ := h tc (List.mem_cons_self _ _)
    have ih := runLoop_eq rest (fun t ht => h t (List.mem_cons_of_mem _ ht))
    have hc := checkTestCase_selector tc X Sel hT
    unfold runLoop
    by_cases hs : scannable tc = true
    · have hs2 : tc.Elts.all identKeyed = true := hs
      rw [List.takeWhile_cons, if_pos hs, List.all_cons, hs, Bool.true_and]
      by_cases hcd : hasCheckDestroyEntry tc.Elts = true
      · have hl : lacksCheckDestroy tc = false := by simp [lacksCheckDestroy, hcd]
        rw [hc, if_pos hs2, if_pos hcd, List.filter_cons, hl]
        simp only
        rw [ih]
        simp
      · have hl : lacksCheckDestroy tc = true := by simp [lacksCheckDestroy, hcd]
        rw [hc, if_pos hs2, if_neg hcd, List.filter_cons, hl]
        simp only
        rw [ih]
        simp
    · have hs2 : ¬ tc.Elts.all identKeyed = true := hs
      have hs3 : scannable tc = false := by simpa using hs
      rw [List.takeWhile_cons, if_neg hs, List.all_cons, hs3, hc, if_neg hs2]
      simp

theorem run_eq (pass : Pass) :
    run pass =
      if (compositeLits (walkList pass.Files)).all (decides pass) = true then
        runLoop ((compositeLits (walkList pass.Files)).filter (accepts pass))
      else ([], .error .nilPackage) := by
  unfold run
  rw [ResourceTestCases_eq]
  split_ifs <;> rfl

theorem run_of_ok (pass : Pass) (testCases : List CompositeLit)
    (h : ResourceTestCases pass = .ok testCases) :
    (∀ tc ∈ testCases, accepts pass tc = true) ∧
    run pass =
      (((testCases.takeWhile scannable).filter lacksCheckDestroy).map missingCheckDestroy,
        if testCases.all scannable = true then .ok () else .error .keyNotIdent) := by
  have hacc : ∀ tc ∈ testCases, accepts pass tc = true := by
    obtain ⟨_, rfl⟩ := (ResourceTestCases_ok_iff pass testCases).1 h
    intro tc htc
    exact (List.mem_filter.1 htc).2
  refine ⟨hacc, ?_⟩
  unfold run
  rw [h]
  exact runLoop_eq testCases (fun tc htc => selector_of_accepts pass tc (hacc tc htc))

theorem run_outcome (pass : Pass) :
    (run pass).2 = .ok () ∨ (run pass).2 = .error .nilPackage ∨
      (run pass).2 = .error .keyNotIdent := by
  rw [run_eq]
  by_cases hd : (compositeLits (walkList pass.Files)).all (decides pass) = true
  · rw [if_pos hd, runLoop_eq _ (fun tc htc => selector_of_accepts pass tc (List.mem_filter.1 htc).2)]
    by_cases hs : ((compositeLits (walkList pass.Files)).filter (accepts pass)).all scannable = true
    · left; simp only; rw [if_pos hs]
    · right; right; simp only; rw [if_neg hs]
  · rw [if_neg hd]
    exact Or.inr (Or.inl rfl)

/-- The test cases `run` reports: those lacking `CheckDestroy` among the
collected ones that precede the first on which the field scan stops. -/
theorem run_reported (pass : Pass) :
    ∃ reported : List CompositeLit,
      (run pass).1 = reported.map missingCheckDestroy ∧
      reported.Sublist (compositeLits (walkList pass.Files)) ∧
      (∀ tc ∈ reported, accepts pass tc = true ∧ hasCheckDestroyEntry tc.Elts = false) ∧
      ((run pass).2 = .ok () →
        reported = (compositeLits (walkList pass.Files)).filter
          (fun tc => accepts pass tc && lacksCheckDestroy tc)) := by
  rw [run_eq]
  by_cases hd : (compositeLits (walkList pass.Files)).all (decides pass) = true
  · rw [if_pos hd, runLoop_eq _ (fun tc htc => selector_of_accepts pass tc (List.mem_filter.1 htc).2)]
    refine ⟨_, rfl, ?_, ?_, ?_⟩
    · exact (List.filter_sublist _).trans
        ((List.takeWhile_prefix _).sublist.trans (List.filter_sublist _))
    · intro tc htc
      obtain ⟨h1, h2⟩ := List.mem_filter.1 htc
      have h3 := (List.takeWhile_prefix scannable).subset h1
      refine ⟨(List.mem_filter.1 h3).2, ?_⟩
      simpa [lacksCheckDestroy] using h2
    · intro hok
      simp only at hok
      have hs : ((compositeLits (walkList pass.Files)).filter (accepts pass)).all scannable
          = true := by
        by_contra hn
        rw [if_neg hn] at hok
        cases hok
      have ht : ((compositeLits (walkList pass.Files)).filter (accepts pass)).takeWhile scannable
          = (compositeLits (walkList pass.Files)).filter (accepts pass) := by
        rw [List.takeWhile_eq_self_iff]
        intro tc htc
        exact List.all_eq_true.1 hs tc htc
      rw [ht, List.filter_filter]
      congr 1
      funext tc
      exact Bool.and_comm _ _
  · rw [if_neg hd]
    refine ⟨[], rfl, List.nil_sublist _, ?_, ?_⟩
    · intro tc htc; cases htc
    · intro h; cases h

theorem run_ok_iff (pass : Pass) :
    (run pass).2 = .ok () ↔
      (∀ cl ∈ compositeLits (walkList pass.Files), decides pass cl = true) ∧
      ∀ cl ∈ compositeLits (walkList pass.Files), accepts pass cl = true → scannable cl = true := by
  rw [run_eq]
  by_cases hd : (compositeLits (walkList pass.Files)).all (decides pass) = true
  · rw [if_pos hd, runLoop_eq _ (fun tc htc => selector_of_accepts pass tc (List.mem_filter.1 htc).2)]
    simp only
    have hd2 : ∀ cl ∈ compositeLits (walkList pass.Files), decides pass cl = true :=
      List.all_eq_true.1 hd
    by_cases hs : ((compositeLits (walkList pass.Files)).filter (accepts pass)).all scannable = true
    · rw [if_pos hs]
      refine ⟨fun _ => ⟨hd2, fun cl hcl ha => ?_⟩, fun _ => rfl⟩
      exact List.all_eq_true.1 hs cl (List.mem_filter.2 ⟨hcl, ha⟩)
    · rw [if_neg hs]
      refine ⟨fun h => (by cases h), fun h => absurd ?_ hs⟩
      exact List.all_eq_true.2 fun cl hcl =>
        h.2 cl (List.mem_filter.1 hcl).1 (List.mem_filter.1 hcl).2
  · rw [if_neg hd]
    refine ⟨fun h => (by cases h), fun h => absurd (List.all_eq_true.2 h.1) hd⟩

/-! ## The claims about run -/

/-- For a test case collected by `ResourceTestCases`, the iteration of
`run` on it reports nothing when its entries include a key/value pair keyed by
the identifier `CheckDestroy`, whatever the value, and reports exactly one
diagnostic, and completes, when the entry list is empty or holds only
positional values and key/value pairs keyed by other identifiers. -/
theorem checkTestCase_field_presence (pass : Pass) (testCases : List CompositeLit)
    (testCase : CompositeLit) (hcol : ResourceTestCases pass = .ok testCases)
    (hmem : testCase ∈ testCases) :
    (hasCheckDestroyEntry testCase.Elts = true → (checkTestCase testCase).1 = []) ∧
    (testCase.Elts = [] → checkTestCase testCase = ([missingCheckDestroy testCase], .ok ())) ∧
    ((∀ e ∈ testCase.Elts, isPositional e = true ∨ isOtherField e = true) →
      checkTestCase testCase = ([missingCheckDestroy testCase], .ok ())) := by
  have hfields : (∀ e ∈ testCase.Elts, isPositional e = true ∨ isOtherField e = true) →
      checkTestCase testCase = ([missingCheckDestroy testCase], .ok ()) := by
    intro h
    obtain ⟨X, Sel, hT⟩ := selector_of_accepts pass testCase ((run_of_ok pass testCases hcol).1 _ hmem)
    have hk : testCase.Elts.all identKeyed = true :=
      List.all_eq_true.2 fun e he => (identKeyed_of_field e (h e he)).1
    have hc : ¬ hasCheckDestroyEntry testCase.Elts = true := by
      unfold hasCheckDestroyEntry
      rw [List.any_eq_true]
      rintro ⟨e, he, hce⟩
      rw [(identKeyed_of_field e (h e he)).2] at hce
      cases hce
    rw [checkTestCase_selector testCase X Sel hT, if_pos hk, if_neg hc]
  refine ⟨checkTestCase_found testCase, fun h => hfields ?_, hfields⟩
  intro e he
  rw [h] at he
  cases he

/-- Instance: in the unit `resource.TestCase{Steps: s}`,
`resource.TestCase{CheckDestroy: f, Steps: s}` the first literal gets one
diagnostic and the second none. -/
theorem checkTestCase_field_presence_witness :
    checkTestCase firstCase = ([⟨109, "missing CheckDestroy"⟩], .ok ()) ∧
    (checkTestCase secondCase).1 = [] :=
  ⟨(checkTestCase_field_presence (unitOf [firstCase, secondCase]) [firstCase, secondCase]
      firstCase rfl (by simp)).2.2 (by decide),
    (checkTestCase_field_presence (unitOf [firstCase, secondCase]) [firstCase, secondCase]
      secondCase rfl (by simp)).1 (by decide)⟩

/-- C4: the literal `resource.TestCase{"k": v}` is collected, and the field scan
of its entries panics at the assertion that the key is an identifier instead of
skipping the entry, so `run` stops without a report. -/
theorem scanElts_literal_key_panics :
    ResourceTestCases (unitOf [literalKeyLit]) = .ok [literalKeyLit] ∧
    scanElts literalKeyLit.Elts false = .error .keyNotIdent ∧
    run (unitOf [literalKeyLit]) = ([], .error .keyNotIdent) :=
  ⟨rfl, rfl, rfl⟩

/-- C6: every test case `ResourceTestCases` returns has a selector expression
as its type, and `run` never fails at the assertion
`testCase.Type.(*ast.SelectorExpr)`. -/
theorem selector_assertion_unreachable (pass : Pass) :
    (∀ testCases, ResourceTestCases pass = .ok testCases →
      ∀ tc ∈ testCases, ∃ X Sel, tc.Type_ = some (.SelectorExpr X Sel)) ∧
    (∀ testCases, ResourceTestCases pass = .ok testCases →
      ∀ tc ∈ testCases, (checkTestCase tc).2 ≠ .error .typeNotSelectorExpr) ∧
    (run pass).2 ≠ .error .typeNotSelectorExpr := by
  have hsel : ∀ testCases, ResourceTestCases pass = .ok testCases →
      ∀ tc ∈ testCases, ∃ X Sel, tc.Type_ = some (.SelectorExpr X Sel) :=
    fun testCases h tc htc =>
      selector_of_accepts pass tc ((run_of_ok pass testCases h).1 tc htc)
  refine ⟨hsel, ?_, ?_⟩
  · intro testCases h tc htc
    obtain ⟨X, Sel, hT⟩ := hsel testCases h tc htc
    rw [checkTestCase_selector tc X Sel hT]
    split_ifs <;> simp
  · rcases run_outcome pass with h | h | h <;> rw [h] <;> simp

/-- Instance of C6: the literal collected from the unit
`resource.TestCase{Steps: s}`, `other.TestCase{Steps: s}` has the selector
`resource.TestCase` as its type. -/
theorem selector_assertion_unreachable_witness :
    ∃ X Sel, firstCase.Type_ = some (.SelectorExpr X Sel) :=
  (selector_assertion_unreachable (unitOf [firstCase, otherCase])).1 [firstCase] rfl
    firstCase (by simp)

/-- The diagnostics of `run` are those of a list of test cases, each a
composite literal of the files that `IsResourceTestCase` accepted and that has
no entry keyed by `CheckDestroy`, so a literal the matcher rejects is never
reported; when `run` completes the reported test cases are exactly the
literals accepted by the matcher that lack such an entry; and `run` completes
exactly when the matcher returns on every literal and every accepted literal
has identifier keys only. -/
theorem run_sound_complete (pass : Pass) :
    ∃ reported : List CompositeLit,
      (run pass).1 = reported.map missingCheckDestroy ∧
      reported.Sublist (compositeLits (walkList pass.Files)) ∧
      (∀ tc ∈ reported,
        IsResourceTestCase pass tc = .ok true ∧ hasCheckDestroyEntry tc.Elts = false) ∧
      ((run pass).2 = .ok () →
        reported = (compositeLits (walkList pass.Files)).filter
          (fun tc => accepts pass tc && lacksCheckDestroy tc)) ∧
      ((run pass).2 = .ok () →
        ∀ tc, tc ∈ reported ↔
          tc ∈ compositeLits (walkList pass.Files) ∧
          IsResourceTestCase pass tc = .ok true ∧ hasCheckDestroyEntry tc.Elts = false) ∧
      ((run pass).2 = .ok () ↔
        (∀ cl ∈ compositeLits (walkList pass.Files), ∃ b, IsResourceTestCase pass cl = .ok b) ∧
        ∀ cl ∈ compositeLits (walkList pass.Files),
          IsResourceTestCase pass cl = .ok true → scannable cl = true) := by
  obtain ⟨reported, h1, h2, h3, h4⟩ := run_reported pass
  refine ⟨reported, h1, h2, ?_, h4, ?_, ?_⟩
  · intro tc htc
    exact ⟨(accepts_iff pass tc).1 (h3 tc htc).1, (h3 tc htc).2⟩
  · intro hok tc
    rw [h4 hok, List.mem_filter, Bool.and_eq_true, accepts_iff]
    unfold lacksCheckDestroy
    simp
  · rw [run_ok_iff]
    have hd : ∀ cl, decides pass cl = true ↔ ∃ b, IsResourceTestCase pass cl = .ok b := by
      intro cl
      unfold decides
      rcases IsResourceTestCase pass cl with p | b <;> simp
    constructor
    · rintro ⟨ha, hb⟩
      exact ⟨fun cl hcl => (hd cl).1 (ha cl hcl),
        fun cl hcl h => hb cl hcl ((accepts_iff pass cl).2 h)⟩
    · rintro ⟨ha, hb⟩
      exact ⟨fun cl hcl => (hd cl).2 (ha cl hcl),
        fun cl hcl h => hb cl hcl ((accepts_iff pass cl).1 h)⟩

/-- C8: every diagnostic of `run` has the message `missing CheckDestroy` and
the position of the `Sel` identifier of the selector that is the type of an
accepted literal; the literal itself opens at the position of the selector's
qualifier `X`, so the two positions differ whenever the qualifier starts before
the selected name. -/
theorem run_diagnostic_position (pass : Pass) :
    ∀ d ∈ (run pass).1,
      d.Message = "missing CheckDestroy" ∧
      ∃ tc X Sel, tc ∈ compositeLits (walkList pass.Files) ∧
        IsResourceTestCase pass tc = .ok true ∧
        tc.Type_ = some (.SelectorExpr X Sel) ∧
        d.Pos = (Node.Ident Sel).Pos ∧
        tc.Pos = X.Pos ∧
        (X.Pos < Sel.NamePos → d.Pos ≠ tc.Pos) := by
  intro d hd
  obtain ⟨reported, h1, h2, h3, _⟩ := run_reported pass
  rw [h1, List.mem_map] at hd
  obtain ⟨tc, htc, rfl⟩ := hd
  obtain ⟨X, Sel, hT⟩ := selector_of_accepts pass tc (h3 tc htc).1
  have hm : missingCheckDestroy tc = ⟨Sel.NamePos, "missing CheckDestroy"⟩ := by
    unfold missingCheckDestroy
    rw [hT]
  have hp : tc.Pos = X.Pos := by
    unfold CompositeLit.Pos CompositeLit.toNode
    rw [hT]
    rfl
  rw [hm]
  refine ⟨rfl, tc, X, Sel, h2.subset htc, (accepts_iff pass tc).1 (h3 tc htc).1, hT, rfl, hp, ?_⟩
  intro hlt heq
  rw [hp] at heq
  exact absurd heq.symm (Nat.ne_of_lt hlt)

/-- Instance of C8: for `resource.TestCase{Steps: s}` opening at 100 the one
diagnostic is at 109, the position of `TestCase`. -/
theorem run_diagnostic_position_witness :
    run (unitOf [firstCase]) = ([⟨109, "missing CheckDestroy"⟩], .ok ()) ∧
    firstCase.Pos = 100 ∧
    (⟨109, "missing CheckDestroy"⟩ : Diagnostic).Message = "missing CheckDestroy" :=
  ⟨rfl, rfl,
    (run_diagnostic_position (unitOf [firstCase]) ⟨109, "missing CheckDestroy"⟩
      (List.mem_singleton.2 rfl)).1⟩

/-- With `testCases` the sequence `ResourceTestCases` collected, the
diagnostics of `run` are, in order, an initial part of the diagnostics of the
collected test cases that lack a `CheckDestroy` entry, and they are all of
them, with `run` completing, when every key of every collected test case is an
identifier. -/
theorem run_order (pass : Pass) (testCases : List CompositeLit)
    (hcol : ResourceTestCases pass = .ok testCases) :
    (run pass).1 <+: (testCases.filter lacksCheckDestroy).map missingCheckDestroy ∧
    ((∀ tc ∈ testCases, scannable tc = true) →
      run pass = ((testCases.filter lacksCheckDestroy).map missingCheckDestroy, .ok ())) := by
  rw [(run_of_ok pass testCases hcol).2]
  refine ⟨((List.takeWhile_prefix scannable).filter lacksCheckDestroy).map missingCheckDestroy, ?_⟩
  intro hs
  have ht : testCases.takeWhile scannable = testCases :=
    List.takeWhile_eq_self_iff.2 hs
  rw [ht, if_pos (List.all_eq_true.2 hs)]

/-- Instance: in a unit with two `resource.TestCase` literals of which
the first lacks `CheckDestroy` and the second sets it, the one diagnostic is
that of the first. -/
theorem run_order_witness :
    ResourceTestCases (unitOf [firstCase, secondCase]) = .ok [firstCase, secondCase] ∧
    run (unitOf [firstCase, secondCase]) = ([missingCheckDestroy firstCase], .ok ()) ∧
    missingCheckDestroy firstCase = ⟨109, "missing CheckDestroy"⟩ :=
  ⟨rfl, (run_order (unitOf [firstCase, secondCase]) [firstCase, secondCase] rfl).2 (by decide),
    rfl⟩

/-- C10: a literal whose selector type resolves to the named type `TestCase`
is accepted when the path of the declaring package is exactly
`github.com/hashicorp/terraform/helper/resource`, also when that path follows a
vendoring prefix such as `example.com/x/vendor/`, and is rejected when the path
does not end with it. -/
theorem IsResourceTestCase_path (pass : Pass) (cl : CompositeLit) (X : Node) (Sel : Ident)
    (path : String) (hT : cl.Type_ = some (.SelectorExpr X Sel))
    (hty : pass.TypeOf (.SelectorExpr X Sel) = some (.Named ⟨"TestCase", some ⟨path⟩⟩)) :
    (path = "github.com/hashicorp/terraform/helper/resource" →
      IsResourceTestCase pass cl = .ok true) ∧
    (path = "example.com/x/vendor/github.com/hashicorp/terraform/helper/resource" →
      IsResourceTestCase pass cl = .ok true) ∧
    ((∃ root : String,
        path = root ++ "/vendor/" ++ "github.com/hashicorp/terraform/helper/resource") →
      IsResourceTestCase pass cl = .ok true) ∧
    ((¬ ∃ pre : String, path = pre ++ "github.com/hashicorp/terraform/helper/resource") →
      IsResourceTestCase pass cl = .ok false) := by
  have hyes : (∃ pre : String, path = pre ++ resourcePath) →
      IsResourceTestCase pass cl = .ok true :=
    fun h => (IsResourceTestCase_true_iff pass cl).2 ⟨X, Sel, _, _, hT, hty, rfl, rfl, h⟩
  refine ⟨fun h => hyes ⟨"", ?_⟩, fun h => hyes ⟨"example.com/x/vendor/", ?_⟩, ?_, ?_⟩
  · rw [h]; decide
  · rw [h]; decide
  · rintro ⟨root, h⟩
    exact hyes ⟨root ++ "/vendor/", h⟩
  · intro h
    rw [IsResourceTestCase_selector pass cl X Sel hT, hty]
    have hs : HasSuffix path resourcePath = false := by
      rw [← Bool.not_eq_true]
      exact fun h3 => h ((HasSuffix_iff _ _).1 h3)
    simp [hs]

/-- Instance of C10: `resource.TestCase{}` resolved to `TestCase` of the
vendored package is accepted. -/
theorem IsResourceTestCase_path_witness :
    IsResourceTestCase
      ⟨[], constInfo (some (testCaseIn
        "example.com/x/vendor/github.com/hashicorp/terraform/helper/resource"))⟩
      emptyLit = .ok true :=
  (IsResourceTestCase_path
    ⟨[], constInfo (some (testCaseIn
      "example.com/x/vendor/github.com/hashicorp/terraform/helper/resource"))⟩
    emptyLit (.Ident ⟨10, "resource"⟩) ⟨19, "TestCase"⟩
    "example.com/x/vendor/github.com/hashicorp/terraform/helper/resource" rfl rfl).2.1 rfl

/-! ## End-to-end scenarios -/

/-- The five literal scenarios: a literal with `CheckDestroy` is not reported;
one without is reported once at the `TestCase` token; `other.TestCase` and
`resource.OtherType` are not reported; of two target literals only the one
lacking the field is reported. -/
theorem run_scenarios :
    run (unitOf [secondCase]) = ([], .ok ()) ∧
    run (unitOf [firstCase]) = ([⟨109, "missing CheckDestroy"⟩], .ok ()) ∧
    run (unitOf [otherCase]) = ([], .ok ()) ∧
    run (unitOf [otherTypeCase]) = ([], .ok ()) ∧
    run (unitOf [firstCase, secondCase]) = ([⟨109, "missing CheckDestroy"⟩], .ok ()) :=
  ⟨rfl, rfl, rfl, rfl, rfl⟩

/-! ## Behaviour of the scan and of the matcher -/

theorem scanElts_append_found (xs ys : List Node)
    (hx : hasCheckDestroyEntry xs = true) (hk : (xs ++ ys).all identKeyed = true) :
    scanElts (xs ++ ys) false = .ok true := by
  rw [scanElts_eq, if_pos hk]
  have : hasCheckDestroyEntry (xs ++ ys) = true := by
    unfold hasCheckDestroyEntry at hx ⊢
    rw [List.any_append, hx]
    rfl
  rw [this]
  rfl

theorem checkTestCase_append_found (testCase : CompositeLit) (xs ys : List Node)
    (hE : testCase.Elts = xs ++ ys) (hx : hasCheckDestroyEntry xs = true) :
    (checkTestCase testCase).1 = [] := by
  apply checkTestCase_found
  rw [hE]
  unfold hasCheckDestroyEntry at hx ⊢
  rw [List.any_append, hx]
  rfl

/-- C11: for `resource.TestCase{CheckDestroy: f, "k": v}`, that is `xs` the
`CheckDestroy` entry and `ys` an entry with a string-literal key, the literal is
collected and the scan of `xs ++ ys` goes on past the match and panics at the
key assertion instead of completing with the field found. -/
theorem scanElts_after_match_panics :
    hasCheckDestroyEntry [Node.KeyValueExpr (.Ident ⟨28, "CheckDestroy"⟩) (.Ident ⟨42, "f"⟩)]
      = true ∧
    scanElts ([Node.KeyValueExpr (.Ident ⟨28, "CheckDestroy"⟩) (.Ident ⟨42, "f"⟩)] ++
      [Node.KeyValueExpr (.BasicLit 45 "\"k\"") (.Ident ⟨50, "v"⟩)]) false
      = .error .keyNotIdent ∧
    ResourceTestCases (unitOf [keyAfterCheckDestroyLit]) = .ok [keyAfterCheckDestroyLit] ∧
    run (unitOf [keyAfterCheckDestroyLit]) = ([], .error .keyNotIdent) :=
  ⟨rfl, rfl, rfl, rfl⟩

/-- C12: the path test is a plain string-suffix test: a literal whose selector
type resolves to the named type `TestCase` declared in the package of path
`p ++ "github.com/hashicorp/terraform/helper/resource"` is accepted for every
string `p`, whether or not `p` ends at a path separator. -/
theorem IsResourceTestCase_raw_suffix (pass : Pass) (cl : CompositeLit) (X : Node) (Sel : Ident)
    (p : String) (hT : cl.Type_ = some (.SelectorExpr X Sel))
    (hty : pass.TypeOf (.SelectorExpr X Sel) = some (.Named ⟨"TestCase",
      some ⟨p ++ "github.com/hashicorp/terraform/helper/resource"⟩⟩)) :
    IsResourceTestCase pass cl = .ok true :=
  (IsResourceTestCase_true_iff pass cl).2 ⟨X, Sel, _, _, hT, hty, rfl, rfl, p, rfl⟩

/-- Instance of C12: `TestCase` of the package
`evil-github.com/hashicorp/terraform/helper/resource` is accepted. -/
theorem IsResourceTestCase_raw_suffix_witness :
    IsResourceTestCase
      ⟨[], constInfo (some (testCaseIn
        "evil-github.com/hashicorp/terraform/helper/resource"))⟩
      emptyLit = .ok true :=
  IsResourceTestCase_raw_suffix
    ⟨[], constInfo (some (testCaseIn "evil-github.com/hashicorp/terraform/helper/resource"))⟩
    emptyLit (.Ident ⟨10, "resource"⟩) ⟨19, "TestCase"⟩ "evil-" rfl rfl

/-- C13: for two literals whose types are selector expressions that the
resolver maps to the same type, `IsResourceTestCase` gives the same result,
whatever the qualifier and the selected name are; so any selector resolved to
the named type `TestCase` of a package whose path ends with the target path is
accepted, and any selector resolved to a type that is not such a named type is
not accepted. -/
theorem IsResourceTestCase_spelling (pass : Pass) (cl₁ cl₂ : CompositeLit)
    (X₁ X₂ : Node) (Sel₁ Sel₂ : Ident)
    (h₁ : cl₁.Type_ = some (.SelectorExpr X₁ Sel₁))
    (h₂ : cl₂.Type_ = some (.SelectorExpr X₂ Sel₂))
    (hty : pass.TypeOf (.SelectorExpr X₁ Sel₁) = pass.TypeOf (.SelectorExpr X₂ Sel₂)) :
    IsResourceTestCase pass cl₁ = IsResourceTestCase pass cl₂ ∧
    (∀ pre : String,
      pass.TypeOf (.SelectorExpr X₁ Sel₁) =
        some (.Named ⟨"TestCase", some ⟨pre ++ resourcePath⟩⟩) →
      IsResourceTestCase pass cl₁ = .ok true) ∧
    ((¬ ∃ pre : String,
      pass.TypeOf (.SelectorExpr X₁ Sel₁) =
        some (.Named ⟨"TestCase", some ⟨pre ++ resourcePath⟩⟩)) →
      IsResourceTestCase pass cl₁ ≠ .ok true) := by
  refine ⟨?_, ?_, ?_⟩
  · rw [IsResourceTestCase_selector pass cl₁ X₁ Sel₁ h₁,
      IsResourceTestCase_selector pass cl₂ X₂ Sel₂ h₂, hty]
  · intro pre h
    exact (IsResourceTestCase_true_iff pass cl₁).2 ⟨X₁, Sel₁, _, _, h₁, h, rfl, rfl, pre, rfl⟩
  · intro hno h
    obtain ⟨X, Sel, Obj, pkg, hT, hO, hn, hp, pre, hpath⟩ :=
      (IsResourceTestCase_true_iff pass cl₁).1 h
    rw [h₁] at hT
    injection hT with hT
    injection hT with hX hS
    subst hX hS
    apply hno
    refine ⟨pre, ?_⟩
    rw [hO]
    obtain ⟨name, pk⟩ := Obj
    simp only at hn hp
    subst hn hp
    rw [← hpath]

/-- Instance of C13: `alias.TC{}` and `resource.TestCase{}`, both resolved to
`TestCase` of the target package, get the same verdict, and `alias.TC{}` is
accepted. -/
theorem IsResourceTestCase_spelling_witness :
    IsResourceTestCase ⟨[], constInfo (some (testCaseIn resourcePath))⟩ aliasLit =
      IsResourceTestCase ⟨[], constInfo (some (testCaseIn resourcePath))⟩ emptyLit ∧
    IsResourceTestCase ⟨[], constInfo (some (testCaseIn resourcePath))⟩ aliasLit = .ok true :=
  ⟨(IsResourceTestCase_spelling ⟨[], constInfo (some (testCaseIn resourcePath))⟩
      aliasLit emptyLit (.Ident ⟨10, "alias"⟩) (.Ident ⟨10, "resource"⟩) ⟨16, "TC"⟩
      ⟨19, "TestCase"⟩ rfl rfl rfl).1,
    (IsResourceTestCase_spelling ⟨[], constInfo (some (testCaseIn resourcePath))⟩
      aliasLit emptyLit (.Ident ⟨10, "alias"⟩) (.Ident ⟨10, "resource"⟩) ⟨16, "TC"⟩
      ⟨19, "TestCase"⟩ rfl rfl rfl).2.1 "" rfl⟩

/-! ## Nested literals -/

theorem mem_walk_self (n : Node) : n ∈ n.walk := by
  cases n <;> simp [Node.walk]

mutual
theorem walk_closed : ∀ (n m : Node), m ∈ n.walk → ∀ k ∈ m.walk, k ∈ n.walk
  | .Ident id, m, hm, k, hk => by
    simp only [Node.walk, List.mem_singleton] at hm
    subst hm
    exact hk
  | .BasicLit p v, m, hm, k, hk => by
    simp only [Node.walk, List.mem_singleton] at hm
    subst hm
    exact hk
  | .SelectorExpr X Sel, m, hm, k, hk => by
    simp only [Node.walk, List.mem_cons, List.mem_append, List.not_mem_nil, or_false] at hm
    rcases hm with rfl | hm | rfl
    · exact hk
    · have := walk_closed X m hm k hk
      simp only [Node.walk, List.mem_cons, List.mem_append]
      exact Or.inr (Or.inl this)
    · simp only [Node.walk, List.mem_singleton] at hk
      subst hk
      simp [Node.walk]
  | .KeyValueExpr key v, m, hm, k, hk => by
    simp only [Node.walk, List.mem_cons, List.mem_append] at hm
    rcases hm with rfl | hm | hm
    · exact hk
    · have := walk_closed key m hm k hk
      simp only [Node.walk, List.mem_cons, List.mem_append]
      exact Or.inr (Or.inl this)
    · have := walk_closed v m hm k hk
      simp only [Node.walk, List.mem_cons, List.mem_append]
      exact Or.inr (Or.inr this)
  | .CompositeLit t lb elts, m, hm, k, hk => by
    simp only [Node.walk, List.mem_cons, List.mem_append] at hm
    rcases hm with rfl | hm | hm
    · exact hk
    · have := walkOpt_closed t m hm k hk
      simp only [Node.walk, List.mem_cons, List.mem_append]
      exact Or.inr (Or.inl this)
    · have := walkList_closed elts m hm k hk
      simp only [Node.walk, List.mem_cons, List.mem_append]
      exact Or.inr (Or.inr this)
  | .Other p cs, m, hm, k, hk => by
    simp only [Node.walk, List.mem_cons] at hm
    rcases hm with rfl | hm
    · exact hk
    · have := walkList_closed cs m hm k hk
      simp only [Node.walk, List.mem_cons]
      exact Or.inr this
theorem walkOpt_closed : ∀ (o : Option Node) (m : Node), m ∈ walkOpt o →
    ∀ k ∈ m.walk, k ∈ walkOpt o
  | none, m, hm, k, hk => by
    simp [walkOpt] at hm
  | some n, m, hm, k, hk => by
    simp only [walkOpt] at hm ⊢
    exact walk_closed n m hm k hk
theorem walkList_closed : ∀ (l : List Node) (m : Node), m ∈ walkList l →
    ∀ k ∈ m.walk, k ∈ walkList l
  | [], m, hm, k, hk => by
    simp [walkList] at hm
  | n :: ns, m, hm, k, hk => by
    simp only [walkList, List.mem_append] at hm ⊢
    rcases hm with hm | hm
    · exact Or.inl (walk_closed n m hm k hk)
    · exact Or.inr (walkList_closed ns m hm k hk)
end

theorem mem_compositeLits (l : List Node) (cl : CompositeLit) :
    cl ∈ compositeLits l ↔ cl.toNode ∈ l := by
  unfold compositeLits
  rw [List.mem_filterMap]
  constructor
  · rintro ⟨n, hn, h⟩
    cases n <;> simp [asCompositeLit] at h
    subst h
    exact hn
  · intro h
    exact ⟨cl.toNode, h, rfl⟩

theorem nested_mem_compositeLits (l : List Node) (outer inner : CompositeLit)
    (ho : outer ∈ compositeLits (walkList l))
    (hi : inner ∈ compositeLits (walkList outer.Elts)) :
    inner ∈ compositeLits (walkList l) := by
  rw [mem_compositeLits] at ho hi ⊢
  apply walkList_closed l outer.toNode ho
  simp only [CompositeLit.toNode, Node.walk, List.mem_cons, List.mem_append]
  exact Or.inr (Or.inr hi)

theorem scanElts_entryKey : ∀ (elts elts' : List Node) (found : Bool),
    elts.map entryKey = elts'.map entryKey → scanElts elts found = scanElts elts' found
  | [], [], _, _ => rfl
  | [], _ :: _, _, h => by simp at h
  | _ :: _, [], _, h => by simp at h
  | e :: es, e' :: es', found, h => by
    simp only [List.map_cons, List.cons.injEq] at h
    obtain ⟨hk, hrest⟩ := h
    have ih := fun f => scanElts_entryKey es es' f hrest
    cases e with
    | KeyValueExpr k v =>
      cases e' with
      | KeyValueExpr k' v' =>
        simp only [entryKey, Option.some.injEq] at hk
        subst hk
        cases k with
        | Ident id =>
          simp only [scanElts]
          rw [ih true, ih found]
        | _ => simp only [scanElts]
      | _ => simp [entryKey] at hk
    | _ =>
      cases e' with
      | KeyValueExpr k' v' => simp [entryKey] at hk
      | _ =>
        simp only [scanElts]
        exact ih found

/-- For a collected test case the field scan depends only on the keys of
its direct entries, not on their values, so a `CheckDestroy` entry inside a
nested literal does not count and the enclosing test case, having no such
direct entry, is reported; every literal nested in its entries that the
matcher accepts is collected too, and when `run` completes each collected
test case is reported or not by its own entries alone. -/
theorem nested_literals (pass : Pass) (testCases : List CompositeLit) (outer : CompositeLit)
    (hcol : ResourceTestCases pass = .ok testCases) (hout : outer ∈ testCases) :
    (∀ elts', elts'.map entryKey = outer.Elts.map entryKey →
      scanElts elts' false = scanElts outer.Elts false) ∧
    (hasCheckDestroyEntry outer.Elts = false → scannable outer = true →
      checkTestCase outer = ([missingCheckDestroy outer], .ok ())) ∧
    (∀ inner ∈ compositeLits (walkList outer.Elts),
      IsResourceTestCase pass inner = .ok true → inner ∈ testCases) ∧
    ((run pass).2 = .ok () →
      (run pass).1 = (testCases.filter lacksCheckDestroy).map missingCheckDestroy) := by
  obtain ⟨hdec, heq⟩ := (ResourceTestCases_ok_iff pass testCases).1 hcol
  have hacc := (run_of_ok pass testCases hcol).1
  refine ⟨fun elts' h => scanElts_entryKey elts' outer.Elts false h, ?_, ?_, ?_⟩
  · intro hno hs
    obtain ⟨X, Sel, hT⟩ := selector_of_accepts pass outer (hacc outer hout)
    have hs2 : outer.Elts.all identKeyed = true := hs
    rw [checkTestCase_selector outer X Sel hT, if_pos hs2, hno]
    rfl
  · intro inner hin hok
    have ho : outer ∈ compositeLits (walkList pass.Files) := by
      rw [heq] at hout
      exact (List.mem_filter.1 hout).1
    rw [heq]
    exact List.mem_filter.2
      ⟨nested_mem_compositeLits pass.Files outer inner ho hin, (accepts_iff pass inner).2 hok⟩
  · intro hok
    rw [(run_of_ok pass testCases hcol).2] at hok ⊢
    simp only at hok ⊢
    have hs : testCases.all scannable = true := by
      by_contra hn
      rw [if_neg hn] at hok
      cases hok
    rw [List.takeWhile_eq_self_iff.2 (List.all_eq_true.1 hs)]

/-- Instance: in `resource.TestCase{Nested: resource.TestCase{CheckDestroy: f}}`
both literals are collected and only the enclosing one is reported, at its
`TestCase` token. -/
theorem nested_literals_witness :
    ResourceTestCases (unitOf [outerWithout]) = .ok [outerWithout, innerWith] ∧
    innerWith ∈ [outerWithout, innerWith] ∧
    checkTestCase outerWithout = ([⟨109, "missing CheckDestroy"⟩], .ok ()) ∧
    run (unitOf [outerWithout]) = ([⟨109, "missing CheckDestroy"⟩], .ok ()) :=
  ⟨rfl,
    (nested_literals (unitOf [outerWithout]) [outerWithout, innerWith] outerWithout rfl
      (List.mem_cons_self _ _)).2.2.1 innerWith (List.mem_singleton.2 rfl) rfl,
    (nested_literals (unitOf [outerWithout]) [outerWithout, innerWith] outerWithout rfl
      (List.mem_cons_self _ _)).2.1 rfl rfl,
    rfl⟩

/-- The converse sample: in
`resource.TestCase{CheckDestroy: f, Nested: resource.TestCase{}}` the nested
literal is collected and reported on its own. -/
theorem nested_literal_reported :
    ResourceTestCases (unitOf [outerWith]) = .ok [outerWith, innerWithout] ∧
    run (unitOf [outerWith]) = ([⟨609, "missing CheckDestroy"⟩], .ok ()) :=
  ⟨rfl, rfl⟩

/-- C15: a composite literal whose type is absent or is a bare identifier is
rejected by `IsResourceTestCase` whatever the resolver says, is never among the
collected test cases, and is not among the test cases `run` reports, each of
which has a selector expression as its type. -/
theorem unqualified_not_reported (pass : Pass) (cl : CompositeLit)
    (hT : cl.Type_ = none ∨ ∃ id, cl.Type_ = some (.Ident id)) :
    IsResourceTestCase pass cl = .ok false ∧
    (∀ testCases, ResourceTestCases pass = .ok testCases → cl ∉ testCases) ∧
    ∃ reported : List CompositeLit,
      (run pass).1 = reported.map missingCheckDestroy ∧
      reported.Sublist (compositeLits (walkList pass.Files)) ∧
      cl ∉ reported ∧
      ∀ tc ∈ reported, ∃ X Sel, tc.Type_ = some (.SelectorExpr X Sel) := by
  have hns : ∀ X Sel, cl.Type_ ≠ some (.SelectorExpr X Sel) := by
    intro X Sel h
    rcases hT with h0 | ⟨id, h0⟩ <;> rw [h0] at h <;> cases h
  have hfalse := IsResourceTestCase_of_not_selector pass cl hns
  have hrej : ¬ accepts pass cl = true := by
    rw [accepts_iff, hfalse]
    intro h
    cases h
  refine ⟨hfalse, ?_, ?_⟩
  · intro testCases h hmem
    exact hrej ((run_of_ok pass testCases h).1 cl hmem)
  · obtain ⟨reported, h1, h2, h3, _⟩ := run_reported pass
    exact ⟨reported, h1, h2, fun hmem => hrej (h3 cl hmem).1,
      fun tc htc => selector_of_accepts pass tc (h3 tc htc).1⟩

/-- Instance of C15: `TestCase{}` and an elided-type `{}` are rejected and the
run over their unit reports nothing, although the resolver gives every
expression the type `TestCase` of the target package. -/
theorem unqualified_not_reported_witness :
    IsResourceTestCase unqualifiedUnit bareLit = .ok false ∧
    IsResourceTestCase unqualifiedUnit elidedLit = .ok false ∧
    run unqualifiedUnit = ([], .ok ()) :=
  ⟨(unqualified_not_reported unqualifiedUnit bareLit (Or.inr ⟨⟨10, "TestCase"⟩, rfl⟩)).1,
    (unqualified_not_reported unqualifiedUnit elidedLit (Or.inl rfl)).1,
    rfl⟩

/-! ## The resolver of a type-checked package -/

/-- C3: with a resolver as `go/types` delivers it, where a named type whose
object has no package is one of the universe scope, `IsResourceTestCase`
completes on every composite literal, and it returns false when the resolver
gives the selector no type, a type that is not named, or a named type whose
object has no package. -/
theorem IsResourceTestCase_completes (pass : Pass) (cl : CompositeLit)
    (huniverse : ∀ e Obj, pass.TypeOf e = some (.Named Obj) → Obj.Pkg = none →
      Obj.Name ∈ universeTypeNames) :
    (∃ b, IsResourceTestCase pass cl = .ok b) ∧
    (∀ X Sel, cl.Type_ = some (.SelectorExpr X Sel) →
      (pass.TypeOf (.SelectorExpr X Sel) = none →
        IsResourceTestCase pass cl = .ok false) ∧
      (∀ k, pass.TypeOf (.SelectorExpr X Sel) = some (.Other k) →
        IsResourceTestCase pass cl = .ok false) ∧
      (∀ Obj, pass.TypeOf (.SelectorExpr X Sel) = some (.Named Obj) → Obj.Pkg = none →
        IsResourceTestCase pass cl = .ok false)) := by
  have hname : ∀ e Obj, pass.TypeOf e = some (.Named Obj) → Obj.Pkg = none →
      Obj.Name ≠ "TestCase" := by
    intro e Obj h hp hn
    have hmem := huniverse e Obj h hp
    rw [hn] at hmem
    revert hmem
    decide
  constructor
  · rcases hres : IsResourceTestCase pass cl with p | b
    · exfalso
      rcases selector_or_not cl.Type_ with ⟨X, Sel, hT⟩ | hT
      · rw [IsResourceTestCase_selector pass cl X Sel hT] at hres
        rcases hty : pass.TypeOf (.SelectorExpr X Sel) with _ | ty
        · rw [hty] at hres; cases hres
        · rw [hty] at hres
          cases ty with
          | Other k => cases hres
          | Named Obj =>
            simp only at hres
            by_cases hn : Obj.Name = "TestCase"
            · rw [if_neg (not_not.mpr hn)] at hres
              rcases hp : Obj.Pkg with _ | pkg
              · exact hname _ Obj hty hp hn
              · rw [hp] at hres
                simp only at hres
                split_ifs at hres
            · rw [if_pos hn] at hres; cases hres
      · rw [IsResourceTestCase_of_not_selector pass cl hT] at hres; cases hres
    · exact ⟨b, rfl⟩
  · intro X Sel hT
    rw [IsResourceTestCase_selector pass cl X Sel hT]
    refine ⟨fun h => by rw [h], fun k h => by rw [h], fun Obj h hp => ?_⟩
    rw [h]
    simp only
    rw [if_pos (hname _ Obj h hp)]

/-- Instance of C3: `resource.TestCase{}` whose selector the resolver maps to
the package-less universe type `error` is rejected. -/
theorem IsResourceTestCase_completes_witness :
    IsResourceTestCase ⟨[], constInfo (some errorType)⟩ emptyLit = .ok false :=
  ((IsResourceTestCase_completes ⟨[], constInfo (some errorType)⟩ emptyLit
    (by
      intro e Obj h _
      have hO : Obj = ⟨"error", none⟩ := by
        simp only [constInfo, errorType, Option.some.injEq, GoType.Named.injEq] at h
        exact h.symm
      rw [hO]
      decide)).2 (.Ident ⟨10, "resource"⟩) ⟨19, "TestCase"⟩ rfl).2.2 ⟨"error", none⟩ rfl rfl

/-! ## Runs stopped by a key that is not an identifier -/

/-- C2: in the unit `resource.TestCase{Steps: s}`, `resource.TestCase{"k": v}`,
`resource.TestCase{}` all three literals are collected and the third has an
empty entry list, yet `run` stops at the second and emits no diagnostic for
the third: its only diagnostic is the one of the first. -/
theorem run_skips_empty_site :
    ResourceTestCases literalKeyUnit = .ok [firstCase, literalKeyCase, innerWithout] ∧
    innerWithout.Elts = [] ∧
    missingCheckDestroy innerWithout = ⟨609, "missing CheckDestroy"⟩ ∧
    run literalKeyUnit = ([⟨109, "missing CheckDestroy"⟩], .error .keyNotIdent) ∧
    (⟨609, "missing CheckDestroy"⟩ : Diagnostic) ∉ (run literalKeyUnit).1 :=
  ⟨rfl, rfl, rfl, rfl, by decide⟩

/-- C7: in the same unit the literal `resource.TestCase{}` is a composite
literal of the files that `IsResourceTestCase` accepts and that has no
`CheckDestroy` entry, yet `run` ends in the key panic without a diagnostic for
it, so a site that should be reported is not. -/
theorem run_incomplete_report :
    innerWithout ∈ compositeLits (walkList literalKeyUnit.Files) ∧
    IsResourceTestCase literalKeyUnit innerWithout = .ok true ∧
    hasCheckDestroyEntry innerWithout.Elts = false ∧
    (run literalKeyUnit).2 = .error .keyNotIdent ∧
    (run literalKeyUnit).1 = [missingCheckDestroy firstCase] ∧
    missingCheckDestroy innerWithout ∉ (run literalKeyUnit).1 :=
  ⟨List.mem_cons_of_mem _ (List.mem_cons_of_mem _ (List.mem_singleton.2 rfl)),
    rfl, rfl, rfl, rfl, by decide⟩

/-- C9: in the same unit the collected sites without a `CheckDestroy` entry
map to the diagnostics at 109, 309 and 609, while `run` emits the first of
them only before it stops at the second site. -/
theorem run_truncated_sequence :
    ResourceTestCases literalKeyUnit = .ok [firstCase, literalKeyCase, innerWithout] ∧
    ([firstCase, literalKeyCase, innerWithout].filter lacksCheckDestroy).map missingCheckDestroy =
      [⟨109, "missing CheckDestroy"⟩, ⟨309, "missing CheckDestroy"⟩,
        ⟨609, "missing CheckDestroy"⟩] ∧
    (run literalKeyUnit).1 = [⟨109, "missing CheckDestroy"⟩] ∧
    (run literalKeyUnit).1 ≠
      ([firstCase, literalKeyCase, innerWithout].filter lacksCheckDestroy).map
        missingCheckDestroy :=
  ⟨rfl, rfl, rfl, by decide⟩

/-- C14: in `resource.TestCase{"k": resource.TestCase{}}` the nested literal
is accepted and collected, and on its own it would be reported at 732, yet
`run` stops in the scan of the enclosing literal and never checks it. -/
theorem run_nested_unchecked :
    ResourceTestCases (unitOf [literalKeyOuter]) = .ok [literalKeyOuter, nestedInner] ∧
    nestedInner ∈ compositeLits (walkList literalKeyOuter.Elts) ∧
    checkTestCase nestedInner = ([⟨732, "missing CheckDestroy"⟩], .ok ()) ∧
    run (unitOf [nestedInner]) = ([⟨732, "missing CheckDestroy"⟩], .ok ()) ∧
    run (unitOf [literalKeyOuter]) = ([], .error .keyNotIdent) :=
  ⟨rfl, List.mem_singleton.2 rfl, rfl, rfl, rfl⟩

end Acctestcheckdestroy
